import Mathlib

/-!
Verification of the sanitizer and report-rendering logic of `src/app.py`
(a Streamlit app that renders an "ASCII-safe" NLP PDF report).

Strings are embedded as lists of Unicode code points (`List Nat`).
Python values that may reach `sanitize_text` are embedded as `PyValue`.
-/

namespace App

/-- A Python runtime value, as far as `sanitize_text`'s type guard cares:
a text string (list of code points) or one of the representative non-text
shapes the spec names (None, a number, a list). -/
inductive PyValue where
  | str : List Nat → PyValue
  | none : PyValue
  | int : Int → PyValue
  | list : List PyValue → PyValue

/-- `PyValue.isStr v` is Python's `isinstance(v, str)`. -/
def PyValue.isStr : PyValue → Bool
  | .str _ => true
  | _ => false

/-- Python's `text.replace(k, v)` for a single-character pattern `k`
(every key in the `replacements` dict of `sanitize_text` is a single
character), replacing each occurrence of the code point `k` with the
string `v`. -/
def replaceChar (k : Nat) (v : List Nat) : List Nat → List Nat
  | [] => []
  | c :: cs => (if c = k then v else [c]) ++ replaceChar k v cs

/-- The `replacements` dict of `sanitize_text` (src/app.py lines 25-33), in
insertion order: ₹ (U+20B9) ↦ "Rs", – (U+2013) ↦ "-", — (U+2014) ↦ "-",
’ (U+2019) ↦ "'", ‘ (U+2018) ↦ "'", “ (U+201C) ↦ '"', ” (U+201D) ↦ '"'. -/
def replacements : List (Nat × List Nat) :=
  [(0x20B9, [82, 115]),
   (0x2013, [45]),
   (0x2014, [45]),
   (0x2019, [39]),
   (0x2018, [39]),
   (0x201C, [34]),
   (0x201D, [34])]

/-- The `for k, v in replacements.items(): text = text.replace(k, v)` loop
of `sanitize_text` (src/app.py lines 35-36). -/
def applySubs (s : List Nat) : List Nat :=
  replacements.foldl (fun t kv => replaceChar kv.1 kv.2 t) s

/-- Python's `text.encode("latin-1", "ignore")`: keep exactly the code
points representable in Latin-1 (0-255), dropping the rest. -/
def encodeLatin1Ignore (s : List Nat) : List Nat :=
  s.filterMap (fun c => if c ≤ 255 then some c else none)

/-- Python's `bytes.decode("latin-1")`: each byte 0-255 decodes to the code
point of the same value. -/
def decodeLatin1 (b : List Nat) : List Nat := b

/-- The string path of `sanitize_text`: substitutions, then
`encode("latin-1", "ignore").decode("latin-1")` (src/app.py line 38). -/
def sanitizeStr (s : List Nat) : List Nat :=
  decodeLatin1 (encodeLatin1Ignore (applySubs s))

/-- `sanitize_text` (src/app.py lines 21-38): non-`str` inputs return `""`;
`str` inputs go through the substitutions and the Latin-1 round trip. -/
def sanitize_text (x : PyValue) : List Nat :=
  match x with
  | .str s => sanitizeStr s
  | _ => []

/-- Code points of a Lean string literal, for writing the app's literal
strings. -/
def strLit (s : String) : List Nat := s.toList.map Char.toNat

/-- A row of dataset A (`trending_topics.csv`): only the `title` column is
used by rendering; it may hold a non-string (e.g. NaN), hence `PyValue`. -/
structure TTRow where
  title : PyValue

/-- A row of dataset B (`word_frequency_table.csv`): the `word` column
(free text, possibly non-string) and the `frequency` column (non-negative
integer). -/
structure WFRow where
  word : PyValue
  frequency : Nat

/-- Python's `str(n)` for a non-negative integer: its decimal digits as
code points, `"0"` for zero. -/
def natToDec (n : Nat) : List Nat :=
  if n = 0 then [48] else ((Nat.digits 10 n).map (fun d => 48 + d)).reverse

/-- The running header drawn on every page by `PDF.header`
(src/app.py lines 44-52). -/
def headerText : List Nat := strLit "Trending Topics NLP Analysis Report"

/-- The running footer drawn on every page by `PDF.footer`:
`f"Page {self.page_no()}"` (src/app.py lines 54-57). -/
def footerText (n : Nat) : List Nat := strLit "Page " ++ natToDec n

/-- The cover-page cells (src/app.py lines 100-120): the title cell and
the sanitized descriptive paragraph. -/
def coverTexts : List (List Nat) :=
  [strLit "NLP Based Trending Topics Report",
   sanitize_text (.str (strLit "This report presents an end to end Natural Language Processing analysis of trending news data using API based collection, TF IDF analysis, and statistical techniques."))]

/-- The executive-summary cells (src/app.py lines 122-141): the section
title and the sanitized three-bullet block interpolating `len(df)`. -/
def summaryTexts (df : List TTRow) : List (List Nat) :=
  [strLit "Executive Summary",
   sanitize_text (.str (strLit "- Total articles analyzed: " ++ natToDec df.length ++
     strLit "\n- Finance, sports, and global news dominate trends\n- TF IDF highlights article specific relevance"))]

/-- The table-body cells of the word-frequency loop (src/app.py lines
160-173): for each row, `sanitize_text(row["word"])` then
`str(row["frequency"])`. -/
def rowCells : List WFRow → List (List Nat)
  | [] => []
  | r :: rs => sanitize_text r.word :: natToDec r.frequency :: rowCells rs

/-- All cells of the word-frequency page (src/app.py lines 144-173): the
section title, the "Word"/"Frequency" header cells, then the body rows of
`word_freq.head(20)`. -/
def wordFreqCells (wf : List WFRow) : List (List Nat) :=
  strLit "Word Frequency Analysis" :: strLit "Word" :: strLit "Frequency" ::
    rowCells (wf.take 20)

/-- All cells of the appendix page (src/app.py lines 176-191): the section
title, then `"- " + sanitize_text(title)` for each row of `df`. -/
def appendixTexts (df : List TTRow) : List (List Nat) :=
  strLit "Appendix: Top Headlines" :: df.map (fun r => strLit "- " ++ sanitize_text r.title)

/-- Every text handed to a `cell`/`multi_cell` draw operation during the
report generation of src/app.py lines 94-191, in page order, with the
running header and footer of each of the four explicitly added pages.
(Geometric auto page breaks are not modelled; an overflow page would only
repeat `headerText` and `footerText n` for a later `n`, which the footer
conjunct of the invariant theorem covers for every `n`.) -/
def reportTexts (df : List TTRow) (wf : List WFRow) : List (List Nat) :=
  (headerText :: coverTexts ++ [footerText 1]) ++
  (headerText :: summaryTexts df ++ [footerText 2]) ++
  (headerText :: wordFreqCells wf ++ [footerText 3]) ++
  (headerText :: appendixTexts df ++ [footerText 4])

/-- Outcome of `load_data()` (src/app.py lines 62-66): either both CSV
files parse into dataframes, or reading raises. -/
inductive LoadResult where
  | ok : List TTRow → List WFRow → LoadResult
  | failure : LoadResult

/-- The externally observable effects of one run of the script: error
messages shown, whether the data preview rendered, the produced artifact
(the report's draw-operation texts), and whether a download was offered. -/
structure Session where
  errors : List (List Nat)
  previewShown : Bool
  artifact : Option (List (List Nat))
  downloadOffered : Bool

def initialSession : Session :=
  { errors := [], previewShown := false, artifact := Option.none, downloadOffered := false }

/-- The script's top-level control flow (src/app.py lines 68-205): a load
failure shows `st.error` and then `st.stop()` halts the script before the
preview, the generate button and the download button; on success the
preview renders and, if the button was clicked, the report is generated
and offered for download. -/
def runScript (load : LoadResult) (generateClicked : Bool) : Session :=
  match load with
  | .failure =>
      { initialSession with errors := [strLit "CSV files not found or invalid."] }
  | .ok df wf =>
      let s := { initialSession with previewShown := true }
      if generateClicked then
        { s with artifact := some (reportTexts df wf), downloadOffered := true }
      else s

-- Basic lemmas about the sanitizer.

theorem replaceChar_append (k : Nat) (v a b : List Nat) :
    replaceChar k v (a ++ b) = replaceChar k v a ++ replaceChar k v b := by
  induction a with
  | nil => rfl
  | cons c cs ih => simp [replaceChar, ih]

theorem replaceChar_of_not_mem {k : Nat} (v : List Nat) {s : List Nat}
    (h : k ∉ s) : replaceChar k v s = s := by
  induction s with
  | nil => rfl
  | cons c cs ih =>
    simp only [List.mem_cons, not_or] at h
    simp [replaceChar, Ne.symm h.1, ih h.2]

theorem mem_replaceChar {k : Nat} {v s : List Nat} {c : Nat}
    (h : c ∈ replaceChar k v s) : c ∈ v ∨ c ∈ s := by
  induction s with
  | nil => simp [replaceChar] at h
  | cons d ds ih =>
    simp only [replaceChar, List.mem_append] at h
    rcases h with h | h
    · by_cases hd : d = k
      · simp [hd] at h; exact Or.inl h
      · simp [hd] at h; subst h; simp
    · rcases ih h with h' | h'
      · exact Or.inl h'
      · simp [h']

theorem encodeLatin1Ignore_eq_filter (s : List Nat) :
    encodeLatin1Ignore s = s.filter (fun c => c ≤ 255) := by
  induction s with
  | nil => rfl
  | cons c cs ih =>
    by_cases h : c ≤ 255 <;>
      simp [encodeLatin1Ignore, List.filterMap_cons, List.filter_cons, h,
        ih, encodeLatin1Ignore] <;> simp_all [encodeLatin1Ignore]

theorem sanitizeStr_eq_filter (s : List Nat) :
    sanitizeStr s = (applySubs s).filter (fun c => c ≤ 255) := by
  simp [sanitizeStr, decodeLatin1, encodeLatin1Ignore_eq_filter]

theorem mem_sanitizeStr_le {s : List Nat} {c : Nat}
    (h : c ∈ sanitizeStr s) : c ≤ 255 := by
  rw [sanitizeStr_eq_filter] at h
  simpa using (List.of_mem_filter h)

/-- On a string all of whose code points are ≤ 255, none of the seven
substitutions fires (each key is above 255). -/
theorem applySubs_of_all_le {s : List Nat} (h : ∀ c ∈ s, c ≤ 255) :
    applySubs s = s := by
  have hk : ∀ k : Nat, 255 < k → k ∉ s := by
    intro k hkgt hmem
    exact absurd (h k hmem) (by omega)
  simp only [applySubs, replacements, List.foldl_cons, List.foldl_nil]
  rw [replaceChar_of_not_mem _ (hk 0x20B9 (by norm_num)),
    replaceChar_of_not_mem _ (hk 0x2013 (by norm_num)),
    replaceChar_of_not_mem _ (hk 0x2014 (by norm_num)),
    replaceChar_of_not_mem _ (hk 0x2019 (by norm_num)),
    replaceChar_of_not_mem _ (hk 0x2018 (by norm_num)),
    replaceChar_of_not_mem _ (hk 0x201C (by norm_num)),
    replaceChar_of_not_mem _ (hk 0x201D (by norm_num))]

/-- On a string all of whose code points are ≤ 255, `sanitize_text` is the
identity. -/
theorem sanitizeStr_of_all_le {s : List Nat} (h : ∀ c ∈ s, c ≤ 255) :
    sanitizeStr s = s := by
  rw [sanitizeStr_eq_filter, applySubs_of_all_le h]
  exact List.filter_eq_self.mpr (fun c hc => by simpa using h c hc)

/-- Two single-character replacements commute when they are the same rule,
or when their keys differ and neither key occurs in the other's
replacement value. -/
theorem replaceChar_comm {k1 k2 : Nat} {v1 v2 : List Nat}
    (h : (k1 = k2 ∧ v1 = v2) ∨ (k1 ≠ k2 ∧ k1 ∉ v2 ∧ k2 ∉ v1)) (s : List Nat) :
    replaceChar k2 v2 (replaceChar k1 v1 s) = replaceChar k1 v1 (replaceChar k2 v2 s) := by
  rcases h with ⟨hk, hv⟩ | ⟨hk, h1, h2⟩
  · subst hk; subst hv; rfl
  · induction s with
    | nil => rfl
    | cons c cs ih =>
      simp only [replaceChar, replaceChar_append, ih]
      congr 1
      by_cases hc1 : c = k1
      · subst hc1
        rw [if_pos rfl, if_neg hk, replaceChar_of_not_mem _ h2]
        simp [replaceChar]
      · by_cases hc2 : c = k2
        · subst hc2
          rw [if_neg hc1, if_pos rfl, replaceChar_of_not_mem _ h1]
          simp [replaceChar, Ne.symm hk]
        · rw [if_neg hc1, if_neg hc2]
          simp [replaceChar, hc1, hc2]

theorem mem_sanitize_le {x : PyValue} {c : Nat} (h : c ∈ sanitize_text x) : c ≤ 255 := by
  cases x <;> first | exact mem_sanitizeStr_le h | simp [sanitize_text] at h

theorem natToDec_le {n c : Nat} (h : c ∈ natToDec n) : c ≤ 255 := by
  unfold natToDec at h
  split at h
  · simp at h; omega
  · simp only [List.mem_reverse, List.mem_map] at h
    obtain ⟨d, hd, rfl⟩ := h
    have := Nat.digits_lt_base (by norm_num) hd
    omega

theorem footerText_le {n c : Nat} (h : c ∈ footerText n) : c ≤ 255 := by
  rcases List.mem_append.mp h with h | h
  · exact (show ∀ c ∈ strLit "Page ", c ≤ 255 by decide) c h
  · exact natToDec_le h

theorem rowCells_all_le {l : List WFRow} {t : List Nat} (h : t ∈ rowCells l) :
    ∀ c ∈ t, c ≤ 255 := by
  induction l with
  | nil => simp [rowCells] at h
  | cons r rs ih =>
    rcases List.mem_cons.mp h with rfl | h'
    · exact fun c hc => mem_sanitize_le hc
    · rcases List.mem_cons.mp h' with rfl | h''
      · exact fun c hc => natToDec_le hc
      · exact ih h''

theorem coverTexts_le : ∀ t ∈ coverTexts, ∀ c ∈ t, c ≤ 255 := by
  intro t ht
  rcases List.mem_cons.mp ht with rfl | ht'
  · decide
  · rcases List.mem_singleton.mp ht' with rfl
    exact fun c hc => mem_sanitize_le hc

theorem summaryTexts_le (df : List TTRow) : ∀ t ∈ summaryTexts df, ∀ c ∈ t, c ≤ 255 := by
  intro t ht
  rcases List.mem_cons.mp ht with rfl | ht'
  · decide
  · rcases List.mem_singleton.mp ht' with rfl
    exact fun c hc => mem_sanitize_le hc

theorem wordFreqCells_le (wf : List WFRow) : ∀ t ∈ wordFreqCells wf, ∀ c ∈ t, c ≤ 255 := by
  intro t ht
  rcases List.mem_cons.mp ht with rfl | ht'
  · decide
  · rcases List.mem_cons.mp ht' with rfl | ht''
    · decide
    · rcases List.mem_cons.mp ht'' with rfl | ht3
      · decide
      · exact rowCells_all_le ht3

theorem appendixTexts_le (df : List TTRow) : ∀ t ∈ appendixTexts df, ∀ c ∈ t, c ≤ 255 := by
  intro t ht
  rcases List.mem_cons.mp ht with rfl | ht'
  · decide
  · obtain ⟨r, _, rfl⟩ := List.mem_map.mp ht'
    intro c hc
    rcases List.mem_append.mp hc with hc' | hc'
    · exact (show ∀ c ∈ strLit "- ", c ≤ 255 by decide) c hc'
    · exact mem_sanitize_le hc'

theorem page_texts_mem {t hd fo : List Nat} {X : List (List Nat)}
    (ht : t ∈ hd :: (X ++ [fo])) : t = hd ∨ t ∈ X ∨ t = fo := by
  rcases List.mem_cons.mp ht with h1 | h1
  · exact Or.inl h1
  · rcases List.mem_append.mp h1 with h2 | h2
    · exact Or.inr (Or.inl h2)
    · exact Or.inr (Or.inr (List.mem_singleton.mp h2))

theorem reportTexts_all_le (df : List TTRow) (wf : List WFRow) :
    ∀ t ∈ reportTexts df wf, ∀ c ∈ t, c ≤ 255 := by
  have hhd : ∀ c ∈ headerText, c ≤ 255 := by decide
  intro t ht
  rcases List.mem_append.mp ht with h1 | h1
  rotate_left
  · rcases page_texts_mem h1 with rfl | h2 | rfl
    · exact hhd
    · exact appendixTexts_le df t h2
    · exact fun c hc => footerText_le hc
  rcases List.mem_append.mp h1 with h2 | h2
  rotate_left
  · rcases page_texts_mem h2 with rfl | h3 | rfl
    · exact hhd
    · exact wordFreqCells_le wf t h3
    · exact fun c hc => footerText_le hc
  rcases List.mem_append.mp h2 with h3 | h3
  · rcases page_texts_mem h3 with rfl | h4 | rfl
    · exact hhd
    · exact coverTexts_le t h4
    · exact fun c hc => footerText_le hc
  · rcases page_texts_mem h3 with rfl | h4 | rfl
    · exact hhd
    · exact summaryTexts_le df t h4
    · exact fun c hc => footerText_le hc

/-- C1: for every text input `s`, `sanitize_text` returns only code points
≤ 255: after the literal substitutions, every code point above 255 is
dropped and the rest are kept in their original order (the result is
exactly the ≤ 255 filter of the substituted string); the empty string maps
to the empty string, and a string whose substituted form consists solely of
unencodable code points maps to the empty string. -/
theorem sanitize_only_latin1 (s : List Nat) :
    (∀ c ∈ sanitize_text (.str s), c ≤ 255) ∧
    sanitize_text (.str s) = (applySubs s).filter (fun c => c ≤ 255) ∧
    sanitize_text (.str ([] : List Nat)) = [] ∧
    ((∀ c ∈ applySubs s, 255 < c) → sanitize_text (.str s) = []) := by
  refine ⟨fun c hc => mem_sanitizeStr_le hc, sanitizeStr_eq_filter s, rfl, fun h => ?_⟩
  show sanitizeStr s = []
  rw [sanitizeStr_eq_filter]
  exact List.filter_eq_nil_iff.mpr fun c hc => by simpa using Nat.not_le.mpr (h c hc)

theorem sanitize_only_latin1_witness :
    (∀ c ∈ sanitize_text (.str (strLit "日本")), c ≤ 255) ∧
    sanitize_text (.str (strLit "日本")) = [] :=
  ⟨(sanitize_only_latin1 (strLit "日本")).1,
    (sanitize_only_latin1 (strLit "日本")).2.2.2 (by decide)⟩

/-- C2: before the encoding filter, `sanitize_text` replaces every
occurrence of ₹ (U+20B9) with "Rs", of – (U+2013) and — (U+2014) with "-",
of ’ (U+2019) and ‘ (U+2018) with "'", and of “ (U+201C) and ” (U+201D)
with '"'; in particular `sanitize_text "₹100" = "Rs100"`. -/
theorem sanitize_substitution_table (s : List Nat) :
    applySubs s =
      replaceChar 0x201D [34] (replaceChar 0x201C [34] (replaceChar 0x2018 [39]
        (replaceChar 0x2019 [39] (replaceChar 0x2014 [45] (replaceChar 0x2013 [45]
          (replaceChar 0x20B9 [82, 115] s)))))) ∧
    sanitize_text (.str s) = decodeLatin1 (encodeLatin1Ignore (applySubs s)) ∧
    sanitize_text (.str (strLit "₹100")) = strLit "Rs100" :=
  ⟨rfl, rfl, by decide⟩

/-- C3: `sanitize_text` is total and never raises: every non-text input
returns the empty string, and every input returns some value. -/
theorem sanitize_total_nontext (x : PyValue) (h : x.isStr = false) :
    sanitize_text x = [] ∧ ∃ r, sanitize_text x = r := by
  refine ⟨?_, ⟨_, rfl⟩⟩
  cases x <;> first | rfl | simp [PyValue.isStr] at h

theorem sanitize_total_nontext_witness :
    sanitize_text .none = [] ∧ ∃ r, sanitize_text .none = r :=
  sanitize_total_nontext .none rfl

/-- C4: `sanitize_text` is idempotent on text:
`sanitize_text (sanitize_text s) = sanitize_text s`. -/
theorem sanitize_idempotent (s : List Nat) :
    sanitize_text (.str (sanitize_text (.str s))) = sanitize_text (.str s) :=
  sanitizeStr_of_all_le fun _ hc => mem_sanitizeStr_le hc

/-- C5: the seven literal substitutions are order-insensitive: applying
the whole-string replacements in any permutation of the code's order
yields the same string, and no substitution's output contains a character
that is another rule's trigger. -/
theorem subs_order_insensitive (l : List (Nat × List Nat))
    (hp : l.Perm replacements) (s : List Nat) :
    l.foldl (fun t kv => replaceChar kv.1 kv.2 t) s = applySubs s ∧
    ∀ p ∈ replacements, ∀ q ∈ replacements, ∀ c ∈ p.2, c ≠ q.1 := by
  refine ⟨?_, by decide⟩
  refine List.Perm.foldl_eq' hp ?_ s
  intro x hx y hy z
  have hx' : x ∈ replacements := hp.mem_iff.mp hx
  have hy' : y ∈ replacements := hp.mem_iff.mp hy
  simp only [replacements, List.mem_cons, List.not_mem_nil, or_false] at hx' hy'
  rcases hx' with h | h | h | h | h | h | h <;> subst h <;>
    rcases hy' with h | h | h | h | h | h | h <;> subst h <;>
      exact replaceChar_comm (by decide) z

theorem subs_order_insensitive_witness :
    ((replacements.reverse).foldl (fun t kv => replaceChar kv.1 kv.2 t)
        (strLit "₹ – “x”") = applySubs (strLit "₹ – “x”")) ∧
    ∀ p ∈ replacements, ∀ q ∈ replacements, ∀ c ∈ p.2, c ≠ q.1 :=
  subs_order_insensitive replacements.reverse (by decide) (strLit "₹ – “x”")

/-- C10: `sanitize_text` is the identity on any string all of whose code
points are ≤ 255, and every substitution trigger has a code point above
255 (so no substitution fires on such a string). -/
theorem sanitize_identity_on_latin1 (s : List Nat) (h : ∀ c ∈ s, c ≤ 255) :
    sanitize_text (.str s) = s ∧ ∀ kv ∈ replacements, 255 < kv.1 :=
  ⟨sanitizeStr_of_all_le h, by decide⟩

theorem sanitize_identity_on_latin1_witness :
    sanitize_text (.str (strLit "hello, Motörhead")) = strLit "hello, Motörhead" ∧
    ∀ kv ∈ replacements, 255 < kv.1 :=
  sanitize_identity_on_latin1 (strLit "hello, Motörhead") (by decide)

/-- C6: every free-text value handed to a page draw operation during
report generation (header and footer cells, cover, summary, table and
appendix cells) has passed through `sanitize_text` — it lies in the
sanitizer's image — and no raw Unicode text (code point above 255) reaches
the layout engine; the footer text is in range for every page number. -/
theorem report_texts_sanitized (df : List TTRow) (wf : List WFRow) :
    (∀ t ∈ reportTexts df wf, (∃ u, sanitize_text (.str u) = t) ∧ ∀ c ∈ t, c ≤ 255) ∧
    (∀ n, ∀ c ∈ footerText n, c ≤ 255) := by
  refine ⟨fun t ht => ?_, fun n c hc => footerText_le hc⟩
  have hle := reportTexts_all_le df wf t ht
  exact ⟨⟨t, sanitizeStr_of_all_le hle⟩, hle⟩

theorem report_texts_sanitized_witness :
    (∃ u, sanitize_text (.str u) = headerText) ∧ ∀ c ∈ headerText, c ≤ 255 :=
  (report_texts_sanitized [] []).1 headerText
    (List.mem_append_left _ (List.mem_append_left _ (List.mem_append_left _
      (List.mem_cons_self _ _))))

theorem rowCells_length (l : List WFRow) : (rowCells l).length = 2 * l.length := by
  induction l with
  | nil => rfl
  | cons r rs ih => simp only [rowCells, List.length_cons, ih]; omega

theorem rowCells_getElem {l : List WFRow} {i : Nat} {r : WFRow} (h : l[i]? = some r) :
    (rowCells l)[2 * i]? = some (sanitize_text r.word) ∧
    (rowCells l)[2 * i + 1]? = some (natToDec r.frequency) := by
  induction l generalizing i with
  | nil => simp at h
  | cons a as ih =>
    cases i with
    | zero =>
      simp only [List.getElem?_cons_zero, Option.some.injEq] at h
      subst h
      constructor <;> simp [rowCells]
    | succ j =>
      have h' : as[j]? = some r := by simpa using h
      constructor
      · rw [show 2 * (j + 1) = 2 * j + 1 + 1 from by ring]
        simp only [rowCells, List.getElem?_cons_succ]
        exact (ih h').1
      · rw [show 2 * (j + 1) + 1 = (2 * j + 1) + 1 + 1 from by ring]
        simp only [rowCells, List.getElem?_cons_succ]
        exact (ih h').2

/-- C7: the word-frequency page renders the section title, a header row
("Word" / "Frequency"), and then exactly the first `min 20 |B|` records of
dataset B in order: the page holds `3 + 2 * min 20 |B|` cells, and the
`i`-th record (for `i < 20`) contributes its sanitized `word` and the
decimal string of its `frequency`, unsanitized, as consecutive cells. -/
theorem word_freq_page (wf : List WFRow) :
    (wordFreqCells wf).length = 3 + 2 * min 20 wf.length ∧
    (wordFreqCells wf)[0]? = some (strLit "Word Frequency Analysis") ∧
    (wordFreqCells wf)[1]? = some (strLit "Word") ∧
    (wordFreqCells wf)[2]? = some (strLit "Frequency") ∧
    ∀ i r, i < 20 → wf[i]? = some r →
      (wordFreqCells wf)[3 + 2 * i]? = some (sanitize_text r.word) ∧
      (wordFreqCells wf)[3 + 2 * i + 1]? = some (natToDec r.frequency) := by
  refine ⟨?_, by simp [wordFreqCells], by simp [wordFreqCells],
    by simp [wordFreqCells], fun i r h20 hir => ?_⟩
  · simp only [wordFreqCells, List.length_cons, rowCells_length, List.length_take]
    omega
  · have htake : (wf.take 20)[i]? = some r := by
      rw [List.getElem?_take_of_lt h20]; exact hir
    constructor
    · rw [show 3 + 2 * i = 2 * i + 1 + 1 + 1 from by ring]
      simp only [wordFreqCells, List.getElem?_cons_succ]
      exact (rowCells_getElem htake).1
    · rw [show 3 + 2 * i + 1 = (2 * i + 1) + 1 + 1 + 1 from by ring]
      simp only [wordFreqCells, List.getElem?_cons_succ]
      exact (rowCells_getElem htake).2

theorem word_freq_page_witness :
    (wordFreqCells [⟨.str (strLit "₹finance"), 42⟩])[3]? =
      some (sanitize_text (.str (strLit "₹finance"))) ∧
    (wordFreqCells [⟨.str (strLit "₹finance"), 42⟩])[4]? = some (natToDec 42) :=
  (word_freq_page [⟨.str (strLit "₹finance"), 42⟩]).2.2.2.2 0
    ⟨.str (strLit "₹finance"), 42⟩ (by decide) rfl

/-- C8: the appendix page renders one entry per record of dataset A, in
order: the page holds the section title followed by `|A|` entries, and the
`i`-th entry is `"- "` concatenated with the sanitized `title` of the
`i`-th record. -/
theorem appendix_page (df : List TTRow) :
    (appendixTexts df).length = 1 + df.length ∧
    (appendixTexts df)[0]? = some (strLit "Appendix: Top Headlines") ∧
    ∀ i r, df[i]? = some r →
      (appendixTexts df)[i + 1]? = some (strLit "- " ++ sanitize_text r.title) := by
  refine ⟨?_, by simp [appendixTexts], fun i r h => ?_⟩
  · simp only [appendixTexts, List.length_cons, List.length_map]
    omega
  · simp [appendixTexts, List.getElem?_cons_succ, List.getElem?_map, h]

theorem appendix_page_witness :
    (appendixTexts [⟨.str (strLit "Budget — ₹2L crore")⟩])[1]? =
      some (strLit "- " ++ sanitize_text (.str (strLit "Budget — ₹2L crore"))) :=
  (appendix_page [⟨.str (strLit "Budget — ₹2L crore")⟩]).2.2 0
    ⟨.str (strLit "Budget — ₹2L crore")⟩ rfl

/-- C9: if loading either input table fails, the script reports the error
and halts: no preview is shown, no artifact (partial or complete) is
produced, and no download is offered — regardless of the button state;
by contrast, a successful load with the button clicked produces the full
report artifact. -/
theorem load_failure_halts (b : Bool) :
    (runScript .failure b).errors = [strLit "CSV files not found or invalid."] ∧
    (runScript .failure b).previewShown = false ∧
    (runScript .failure b).artifact = Option.none ∧
    (runScript .failure b).downloadOffered = false ∧
    ∀ df wf, (runScript (.ok df wf) true).artifact = some (reportTexts df wf) :=
  ⟨rfl, rfl, rfl, rfl, fun _ _ => rfl⟩

end App

